import Mathlib

/-!
# Verification of the scikit-bandit core (bandits, environments, experiments)

Shallow embedding of the Python sources of `scikit-bandit` (package
`skbandit`): the explore-then-commit bandit, the plain and contextual LinUCB
bandits, the stochastic and adversarial environments, and the experiment
control loop.  Python machine floats are modelled by `ℚ` (every literal the
claims use is a small rational, and no transcendental value ever reaches a
comparison that a claim depends on); Python lists by `List`, with indexing
helpers that reproduce Python's negative-index wrap-around and `IndexError`;
raised exceptions by `Option`/`Except`.
-/

namespace SkBandit

/-! ## Python list primitives

`pyGet l i` models the Python expression `l[i]` for `i : ℤ`: non-negative
indices must be `< len(l)`, negative indices wrap (`l[-1]` is the last
element), anything else raises `IndexError` (modelled as `none`). -/

def pyNormIdx (len : ℕ) (i : ℤ) : Option ℕ :=
  if 0 ≤ i then
    if i < (len : ℤ) then some i.toNat else none
  else
    if 0 ≤ (len : ℤ) + i then some ((len : ℤ) + i).toNat else none

def pyGet {α : Type} (l : List α) (i : ℤ) : Option α :=
  (pyNormIdx l.length i).bind (fun j => l.get? j)

def pySet {α : Type} (l : List α) (i : ℤ) (v : α) : Option (List α) :=
  (pyNormIdx l.length i).map (fun j => l.set j v)

/-- Python's `max(l)` over a nonempty list (`ValueError`, i.e. `none`, on an
empty one). -/
def pyMax (l : List ℚ) : Option ℚ :=
  match l with
  | [] => none
  | x :: xs => some (xs.foldl max x)

/-- Python's `l.index(max(l))`: the first (lowest) index holding the maximum
value of `l`; `none` when `l` is empty. -/
def pyIndexOfMax (l : List ℚ) : Option ℕ :=
  (pyMax l).map (fun m => l.findIdx (fun x => decide (x = m)))

/-! ## RewardAccumulatorMixin (src/skbandit/bandits/base.py, lines 37-52)

State: `_arm_counts : list[int]`, `_total_rewards : list[float]`, both of
length `n_arms`.  `reward(arm, reward)` runs `self._arm_counts[arm] += 1`
then `self._total_rewards[arm] += reward`; a Python `list[arm]` read with an
out-of-range `arm` raises `IndexError` before anything is written (the two
lists have the same length, so once the first read succeeds every later
access succeeds too). -/

structure RewardAccumulator where
  arm_counts : List ℕ
  total_rewards : List ℚ
  deriving Repr, DecidableEq

def RewardAccumulator.init (n_arms : ℕ) : RewardAccumulator :=
  { arm_counts := List.replicate n_arms 0
    total_rewards := List.replicate n_arms 0 }

def RewardAccumulator.reward (acc : RewardAccumulator) (arm : ℤ) (r : ℚ) :
    Option RewardAccumulator := do
  let c ← pyGet acc.arm_counts arm
  let counts ← pySet acc.arm_counts arm (c + 1)
  let t ← pyGet acc.total_rewards arm
  let totals ← pySet acc.total_rewards arm (t + r)
  pure { arm_counts := counts, total_rewards := totals }

/-! ## ExploreThenCommitBandit (src/skbandit/bandits/mab.py, lines 8-62)

Fields mirror `__init__`: `_current_round = 0`, `_best_arm = None`, the
accumulator arrays from `RewardAccumulatorMixin.__init__`, and the epoch
count chosen from the parameters (`_n_remaining_epochs` starts equal to
`_n_epochs` and is only ever decremented by `_next_round`; nothing reads
it).  `n_arms = 0` would make `_next_round` raise `ZeroDivisionError`, so
`pull` is `Option`-valued and guards it. -/

structure ETC where
  n_arms : ℕ
  n_epochs : ℕ
  current_round : ℕ
  best_arm : Option ℕ
  acc : RewardAccumulator
  n_remaining_epochs : ℤ
  deriving Repr, DecidableEq

/-- `ExploreThenCommitBandit.__init__` once the epoch count has been fixed. -/
def ETC.mk0 (n_arms n_epochs : ℕ) : ETC :=
  { n_arms := n_arms
    n_epochs := n_epochs
    current_round := 0
    best_arm := none
    acc := RewardAccumulator.init n_arms
    n_remaining_epochs := (n_epochs : ℤ) }

/-- The epoch count chosen by `ExploreThenCommitBandit.__init__`
(src/skbandit/bandits/mab.py, lines 30-38): the `(gap, horizon)` formula when
both are given, else the explicit `n_epochs`, else `1`.  The formula branch is
`max(1, ceil((4 / gap ** 2) * log(horizon * gap ** 2 / 4)))`. -/
noncomputable def etcNEpochs (n_epochs : Option ℕ) (gap : Option ℝ)
    (horizon : Option ℕ) : ℕ :=
  match gap, horizon with
  | some g, some h => max 1 ⌈(4 / g ^ 2) * Real.log ((h : ℝ) * g ^ 2 / 4)⌉.toNat
  | _, _ =>
    match n_epochs with
    | some k => k
    | none => 1

/-- `ExploreThenCommitBandit(n_arms, n_epochs, gap, horizon)`. -/
noncomputable def ETC.construct (n_arms : ℕ) (n_epochs : Option ℕ)
    (gap : Option ℝ) (horizon : Option ℕ) : ETC :=
  ETC.mk0 n_arms (etcNEpochs n_epochs gap horizon)

/-- `_next_round` (mab.py lines 40-43). -/
def ETC.nextRound (s : ETC) : ETC :=
  let r := s.current_round + 1
  { s with
    current_round := r
    n_remaining_epochs :=
      if r % s.n_arms = 0 then s.n_remaining_epochs - 1
      else s.n_remaining_epochs }

/-- `pull` (mab.py lines 45-57).  Returns `none` when the Python code would
raise (`n_arms = 0`, or `max`/`index` on an empty rewards list). -/
def ETC.pull (s : ETC) : Option (ℕ × ETC) :=
  if s.n_arms = 0 then none
  else if s.current_round < s.n_arms * s.n_epochs then
    some (s.current_round % s.n_arms, s.nextRound)
  else
    match s.best_arm with
    | some a => some (a, s.nextRound)
    | none =>
      match pyIndexOfMax s.acc.total_rewards with
      | none => none
      | some a => some (a, ETC.nextRound { s with best_arm := some a })

/-- `reward` (mab.py lines 59-62): accumulates only while
`_current_round <= _n_arms * _n_epochs`, otherwise a silent no-op. -/
def ETC.reward (s : ETC) (arm : ℤ) (r : ℚ) : Option ETC :=
  if s.current_round ≤ s.n_arms * s.n_epochs then
    (s.acc.reward arm r).map (fun acc => { s with acc := acc })
  else
    some s

/-- Result of `n` successive `pull()` calls with no intervening rewards. -/
def ETC.pulls (s : ETC) : ℕ → Option (List ℕ)
  | 0 => some []
  | n + 1 => do
    let (a, s') ← s.pull
    let rest ← s'.pulls n
    pure (a :: rest)

/-! ### Exploration-phase lemmas -/

theorem ETC.nextRound_current_round (s : ETC) :
    s.nextRound.current_round = s.current_round + 1 := rfl

theorem ETC.nextRound_fields (s : ETC) :
    s.nextRound.n_arms = s.n_arms ∧ s.nextRound.n_epochs = s.n_epochs ∧
      s.nextRound.best_arm = s.best_arm ∧ s.nextRound.acc = s.acc :=
  ⟨rfl, rfl, rfl, rfl⟩

theorem ETC.pull_explore (s : ETC) (hn : s.n_arms ≠ 0)
    (hlt : s.current_round < s.n_arms * s.n_epochs) :
    s.pull = some (s.current_round % s.n_arms, s.nextRound) := by
  unfold ETC.pull
  rw [if_neg hn, if_pos hlt]

/-- During exploration, `k` successive pulls starting at round `r` return
`r % n, (r+1) % n, …, (r+k-1) % n`. -/
theorem ETC.pulls_explore (k : ℕ) (s : ETC) (hn : s.n_arms ≠ 0)
    (hk : s.current_round + k ≤ s.n_arms * s.n_epochs) :
    s.pulls k =
      some (List.map (fun i => i % s.n_arms) (List.range' s.current_round k)) := by
  induction k generalizing s with
  | zero => simp [ETC.pulls]
  | succ k ih =>
    have hlt : s.current_round < s.n_arms * s.n_epochs := by omega
    have hstep := ih s.nextRound (by simpa [ETC.nextRound] using hn)
      (by simp only [ETC.nextRound]; omega)
    simp only [ETC.pulls, ETC.pull_explore s hn hlt, Option.bind_eq_bind,
      Option.some_bind, hstep, List.range'_succ]
    simp [ETC.nextRound]

/-! ### Commitment-phase lemmas -/

/-- An interleaving of `pull()` and `reward(arm, value)` calls. -/
inductive ETCOp where
  | pull : ETCOp
  | reward (arm : ℤ) (value : ℚ) : ETCOp

/-- Run a sequence of calls, collecting the arms the pulls return; `none` as
soon as one call raises. -/
def ETC.runOps (s : ETC) : List ETCOp → Option (List ℕ × ETC)
  | [] => some ([], s)
  | ETCOp.pull :: ops => do
    let (a, s') ← s.pull
    let (arms, s'') ← s'.runOps ops
    pure (a :: arms, s'')
  | ETCOp.reward arm v :: ops => do
    let s' ← s.reward arm v
    s'.runOps ops

/-- The bandit has committed to arm `c`: `_best_arm` is set and the round
counter has passed the exploration horizon. -/
def ETC.CommittedTo (s : ETC) (c : ℕ) : Prop :=
  s.best_arm = some c ∧ s.n_arms ≠ 0 ∧ s.n_arms * s.n_epochs < s.current_round

theorem ETC.pull_committed {s : ETC} {c : ℕ} (h : s.CommittedTo c) :
    s.pull = some (c, s.nextRound) ∧ s.nextRound.CommittedTo c := by
  obtain ⟨hb, hn, hr⟩ := h
  constructor
  · unfold ETC.pull
    rw [if_neg hn, if_neg (by omega), hb]
  · exact ⟨hb, hn, by simp only [ETC.nextRound]; omega⟩

theorem ETC.reward_committed {s : ETC} {c : ℕ} (h : s.CommittedTo c)
    (arm : ℤ) (v : ℚ) : s.reward arm v = some s := by
  obtain ⟨-, -, hr⟩ := h
  unfold ETC.reward
  rw [if_neg (by omega)]

theorem ETC.runOps_committed {s : ETC} {c : ℕ} (h : s.CommittedTo c)
    (ops : List ETCOp) :
    ∃ arms s', s.runOps ops = some (arms, s') ∧ (∀ a ∈ arms, a = c) ∧
      s'.CommittedTo c := by
  induction ops generalizing s with
  | nil => exact ⟨[], s, rfl, by simp, h⟩
  | cons op ops ih =>
    cases op with
    | pull =>
      obtain ⟨hpull, hnext⟩ := ETC.pull_committed h
      obtain ⟨arms, s', hrun, hall, hcom⟩ := ih hnext
      refine ⟨c :: arms, s', ?_, ?_, hcom⟩
      · simp [ETC.runOps, hpull, hrun]
      · intro a ha
        rcases List.mem_cons.mp ha with rfl | ha
        · rfl
        · exact hall a ha
    | reward arm v =>
      obtain ⟨arms, s', hrun, hall, hcom⟩ := ih h
      exact ⟨arms, s', by simp [ETC.runOps, ETC.reward_committed h, hrun], hall, hcom⟩

theorem pyIndexOfMax_isSome {l : List ℚ} (h : l ≠ []) :
    ∃ c, pyIndexOfMax l = some c := by
  match l, h with
  | x :: xs, _ => exact ⟨_, rfl⟩

/-! ## StochasticMultiArmedEnvironment
(src/skbandit/environments/stochastic.py, lines 36-65)

A distribution is the random-variate capability `mean()` / `rvs()`.  The
claims only use degenerate (deterministic) distributions, so a distribution
is modelled by its mean together with the fixed value every `rvs()` call
returns (for a degenerate distribution the two coincide). -/

structure Dist where
  mean : ℚ
  rvs : ℚ
  deriving Repr, DecidableEq

structure StochasticMAEnv where
  distributions : List Dist
  means : List ℚ
  best_reward : ℚ
  best_arm : ℕ
  deriving Repr, DecidableEq

/-- `StochasticMultiArmedEnvironment.__init__`: stores the distributions,
their means, the best mean and its first index; Python's `max` raises on an
empty list (`none` here). -/
def StochasticMAEnv.construct (ds : List Dist) : Option StochasticMAEnv := do
  let means := ds.map Dist.mean
  let best ← pyMax means
  pure { distributions := ds, means := means, best_reward := best,
         best_arm := means.findIdx (fun x => decide (x = best)) }

def StochasticMAEnv.n_arms (e : StochasticMAEnv) : ℕ := e.distributions.length

/-- `regret(reward) = self._best_reward - reward`. -/
def StochasticMAEnv.regret (e : StochasticMAEnv) (reward : ℚ) : ℚ :=
  e.best_reward - reward

/-- `reward(arm) = self._distributions[arm].rvs()`. -/
def StochasticMAEnv.rewardOf (e : StochasticMAEnv) (arm : ℤ) : Option ℚ :=
  (pyGet e.distributions arm).map Dist.rvs

/-! ## BanditFeedbackExperiment with a stochastic environment
(src/skbandit/experiments/base.py lines 89-102, experiments/stochastic.py)

`StochasticMultiArmedEnvironment` never overrides
`may_stop_accepting_inputs`, so `round` skips the exhaustion guard and
`rounds(n)` is a plain sum of `n` `round()` calls.  The environment itself
is immutable (sampling is deterministic here), so only the bandit state is
threaded. -/

/-- `MultiArmedStochasticExperiment.__init__`: the `n_arms` assertion plus
the `best_arm` computation (`means.index(max(means))`). -/
def MultiArmedStochasticExperiment.constructCheck (e : StochasticMAEnv)
    (bandit_n_arms : ℕ) : Option ℕ :=
  if e.n_arms = bandit_n_arms then
    (pyMax e.means).map (fun m => e.means.findIdx (fun x => decide (x = m)))
  else
    none

/-- `BanditFeedbackExperiment.round`: pull, resolve the reward, forward it,
return the environment's regret. -/
def stochRound (e : StochasticMAEnv) (s : ETC) : Option (ℚ × ETC) := do
  let (arm, s₁) ← s.pull
  let r ← e.rewardOf (arm : ℤ)
  let s₂ ← s₁.reward (arm : ℤ) r
  pure (e.regret r, s₂)

/-- `Experiment.rounds(n)` in the always-accepting case: the sum of `n`
`round()` results. -/
def stochRounds (e : StochasticMAEnv) (s : ETC) : ℕ → Option (ℚ × ETC)
  | 0 => some (0, s)
  | n + 1 => do
    let (q, s₁) ← stochRound e s
    let (rest, s₂) ← stochRounds e s₁ n
    pure (q + rest, s₂)

theorem stochRounds_succ (e : StochasticMAEnv) (s : ETC) (n : ℕ) :
    stochRounds e s (n + 1) =
      (stochRound e s).bind (fun p =>
        (stochRounds e p.2 n).bind (fun r => some (p.1 + r.1, r.2))) := rfl

/-- One experiment round on a committed bandit: the committed arm is pulled,
its reward is resolved, the bandit ignores it, and the environment's regret
for it is returned. -/
theorem stochRound_committed {e : StochasticMAEnv} {s : ETC} {c : ℕ} {v : ℚ}
    (h : s.CommittedTo c) (hr : e.rewardOf (c : ℤ) = some v) :
    stochRound e s = some (e.regret v, s.nextRound) ∧
      s.nextRound.CommittedTo c := by
  obtain ⟨hpull, hcom⟩ := ETC.pull_committed h
  refine ⟨?_, hcom⟩
  simp [stochRound, hpull, hr, ETC.reward_committed hcom]

/-- Once the bandit is committed and the committed arm's reward has zero
regret, any further block of rounds contributes zero total regret. -/
theorem stochRounds_committed {e : StochasticMAEnv} {c : ℕ} {v : ℚ}
    (hreg : e.regret v = 0) (hr : e.rewardOf (c : ℤ) = some v) :
    ∀ (n : ℕ) {s : ETC}, s.CommittedTo c →
      ∃ s', stochRounds e s n = some (0, s') := by
  intro n
  induction n with
  | zero => exact fun _ => ⟨_, rfl⟩
  | succ n ih =>
    intro s hs
    obtain ⟨hround, hcom⟩ := stochRound_committed hs hr
    obtain ⟨s', hrest⟩ := ih hcom
    exact ⟨s', by simp [stochRounds_succ, hround, hrest, hreg]⟩

/-! ## LinUCB, plain linear variant (src/skbandit/bandits/linear.py)

`pull` increments `_current_round` first, then keeps cold-starting only
while `_current_round < n_arms`.  In the UCB branch `estimated_rewards[arm]
= total_rewards[arm] / arm_counts[arm]` raises `ZeroDivisionError` when
`arm_counts[arm] = 0`.  The `index` list computed on the next source line
divides by the same counts after `estimated_rewards` succeeded (so it can
no longer raise: every count is then `≥ 1` and `log(current_round) ≥ 0`)
and is not used by the selection, which is
`max(range(n_arms), key=lambda arm: estimated_rewards[arm])`; it therefore
does not appear in the state transformer. -/

structure LinUCB where
  n_arms : ℕ
  current_round : ℕ
  acc : RewardAccumulator
  deriving Repr, DecidableEq

def LinUCB.init (n_arms : ℕ) : LinUCB :=
  { n_arms := n_arms, current_round := 0, acc := RewardAccumulator.init n_arms }

/-- A Python list comprehension: elements evaluated left to right, the
first raised exception aborting the whole comprehension. -/
def pyListComp {α β : Type} (f : α → Option β) : List α → Option (List β)
  | [] => some []
  | a :: as => do
    let x ← f a
    let rest ← pyListComp f as
    pure (x :: rest)

/-- `[self.total_rewards[arm] / self.arm_counts[arm] for arm in
range(self.n_arms)]`; `none` on the first zero count (`ZeroDivisionError`). -/
def LinUCB.estimatedRewards (s : LinUCB) : Option (List ℚ) :=
  pyListComp (fun a => do
    let t ← pyGet s.acc.total_rewards (a : ℤ)
    let c ← pyGet s.acc.arm_counts (a : ℤ)
    if c = 0 then none else pure (t / (c : ℚ))) (List.range s.n_arms)

/-- Python's `max(range(len l), key=lambda a: l[a])`: first index of the
maximum (`max` only replaces its current best on a strictly greater key);
`ValueError`, i.e. `none`, when `l` is empty. -/
def pyArgmaxFirst (l : List ℚ) : Option ℕ :=
  match l.enum with
  | [] => none
  | p :: ps => some (ps.foldl (fun b q => if q.2 > b.2 then q else b) p).1

/-- `LinUCB.pull` (linear.py lines 18-32). -/
def LinUCB.pull (s : LinUCB) : Option (ℕ × LinUCB) :=
  let s₁ : LinUCB := { s with current_round := s.current_round + 1 }
  if s₁.current_round < s.n_arms then
    some (s₁.current_round - 1, s₁)
  else do
    let est ← s₁.estimatedRewards
    let a ← pyArgmaxFirst est
    pure (a, s₁)

/-- `reward` as the class would need it (`RewardAccumulatorMixin.reward`;
note the source's MRO actually resolves `reward` to the base `Bandit`'s
`NotImplementedError` stub, so giving the bandit a reward at all is
charitable here). -/
def LinUCB.reward (s : LinUCB) (arm : ℤ) (r : ℚ) : Option LinUCB :=
  (s.acc.reward arm r).map (fun acc => { s with acc := acc })

/-! ## LinUCB, contextual variant (src/skbandit/bandits/contextual.py)

Per-arm numpy state: `_estimate_A[arm] = np.identity(n_features)` (a `d×d`
2-D array) and `_estimate_b[arm] = np.zeros((n_features, 1))` (a `d×1`
column), mutated by `reward` through numpy's in-place `+=`.  The context is
a 1-D array of shape `(d,)` (enforced by `_check_context`), for which numpy
gives: `context.T = context`, `context @ context.T` is the scalar dot
product, `A += scalar` adds the scalar to every entry, and the in-place
`b += v` with `v` 1-D of length `d` demands the broadcast keep `b`'s shape —
legal only when `d` equals `b`'s column count or `d = 1`, otherwise
`ValueError` with `b` untouched (and `A` already mutated, since its line ran
first).  2-D arrays are rectangular lists of rows. -/

inductive NpErr where
  | assertionError : NpErr
  | indexError : NpErr
  | valueError : NpErr
  deriving Repr, DecidableEq

def npIdentity (d : ℕ) : List (List ℚ) :=
  (List.range d).map (fun i => (List.range d).map (fun j => if i = j then 1 else 0))

def npZerosCol (d : ℕ) : List (List ℚ) :=
  List.replicate d [0]

/-- `np.matmul` of two 1-D arrays: their dot product (shape mismatch
raises). -/
def npDot (x y : List ℚ) : Option ℚ :=
  if x.length = y.length then some (List.zipWith (fun a b => a * b) x y).sum
  else none

/-- In-place `B += s` for a 2-D array `B` and scalar `s`. -/
def npIaddScalar (B : List (List ℚ)) (s : ℚ) : List (List ℚ) :=
  B.map (fun row => row.map (fun x => x + s))

/-- In-place `B += v` for a rectangular 2-D `B` and 1-D `v`: the result must
keep `B`'s shape, so `v` must have length `1` or `B`'s column count. -/
def npIaddRow (B : List (List ℚ)) (v : List ℚ) : Option (List (List ℚ)) :=
  if v.length = 1 then some (B.map (fun row => row.map (fun x => x + v.headD 0)))
  else if v.length = (B.headD []).length then
    some (B.map (fun row => List.zipWith (fun x y => x + y) row v))
  else none

structure CtxLinUCB where
  n_arms : ℕ
  n_features : ℕ
  current_round : ℕ
  estimate_A : List (List (List ℚ))
  estimate_b : List (List (List ℚ))
  deriving Repr, DecidableEq

def CtxLinUCB.init (n_arms n_features : ℕ) : CtxLinUCB :=
  { n_arms := n_arms
    n_features := n_features
    current_round := 0
    estimate_A := List.replicate n_arms (npIdentity n_features)
    estimate_b := List.replicate n_arms (npZerosCol n_features) }

/-- `reward(arm, reward, context)` (contextual.py lines 51-55), with the
state as mutated up to the point of any raise: `_check_context`, then
`self._estimate_A[arm] += context @ context.T`, then
`self._estimate_b[arm] += reward * context.T`. -/
def CtxLinUCB.reward (s : CtxLinUCB) (arm : ℤ) (r : ℚ) (ctx : List ℚ) :
    Option NpErr × CtxLinUCB :=
  if ctx.length ≠ s.n_features then (some NpErr.assertionError, s)
  else
    match pyGet s.estimate_A arm, npDot ctx ctx with
    | some A, some d =>
      match pySet s.estimate_A arm (npIaddScalar A d) with
      | some As =>
        let s₁ : CtxLinUCB := { s with estimate_A := As }
        match pyGet s₁.estimate_b arm with
        | some b =>
          match npIaddRow b (ctx.map (fun x => r * x)) with
          | some b2 =>
            match pySet s₁.estimate_b arm b2 with
            | some bs => (none, { s₁ with estimate_b := bs })
            | none => (some NpErr.indexError, s₁)
          | none => (some NpErr.valueError, s₁)
        | none => (some NpErr.indexError, s₁)
      | none => (some NpErr.indexError, s)
    | _, _ => (some NpErr.indexError, s)

/-- The update claim C5 states (the LinUCB disjoint-model update the spec
describes): `A[arm] += context·contextᵀ` as a `d×d` rank-one outer product
and `b[arm] += value·context` as a column, every other arm untouched.
Stated over the same representation, for comparison with
`CtxLinUCB.reward`. -/
def CtxLinUCB.rewardSpec (s : CtxLinUCB) (arm : ℤ) (r : ℚ) (ctx : List ℚ) :
    Option CtxLinUCB := do
  let A ← pyGet s.estimate_A arm
  let outer := ctx.map (fun xi => ctx.map (fun xj => xi * xj))
  let As ← pySet s.estimate_A arm
    (List.zipWith (fun ra ro => List.zipWith (fun x y => x + y) ra ro) A outer)
  let b ← pyGet s.estimate_b arm
  let bs ← pySet s.estimate_b arm
    (List.zipWith (fun brow xi => brow.map (fun x => x + r * xi)) b ctx)
  pure { s with estimate_A := As, estimate_b := bs }

/-! ## Adversarial environments (src/skbandit/environments/adversarial.py)

`Adversary` is the capability `decide_rewards` / `register_interaction`,
with internal state of some type `α` threaded explicitly.  The claims only
play single integer arms, so `arm : ℤ` (the source's arm-combination branch
sums over a sequence and is not exercised).  `AdversarialEnvironment.__init__`
sets `_last_rewards = None`. -/

structure Adversary (α : Type) where
  n_arms : ℕ
  decide_rewards : α → List ℚ × α
  register_interaction : α → ℤ → α

structure AdvEnv (α : Type) where
  last_rewards : Option (List ℚ)
  adv : α

def AdvEnv.init {α : Type} (a : α) : AdvEnv α := ⟨none, a⟩

inductive AdvErr where
  | sequencingViolation : AdvErr
  | valueError : AdvErr
  | indexError : AdvErr
  deriving Repr, DecidableEq

/-- `AdversarialEnvironment.regret` (adversarial.py lines 43-49): the
`AssertionError` when `_last_rewards is None` is the sequencing violation;
`max(self._last_rewards) - reward` otherwise (Python's `max` raising
`ValueError` on an empty vector). -/
def AdvEnv.regret {α : Type} (e : AdvEnv α) (reward : ℚ) : Except AdvErr ℚ :=
  match e.last_rewards with
  | none => Except.error AdvErr.sequencingViolation
  | some l =>
    match pyMax l with
    | none => Except.error AdvErr.valueError
    | some m => Except.ok (m - reward)

/-- `AdversarialMultiArmedEnvironment.reward` (lines 55-64): caches the
decided vector first, then extracts the played arm's entry (an out-of-range
arm raises only after the cache is set), then registers the interaction. -/
def AdvEnv.reward {α : Type} (A : Adversary α) (e : AdvEnv α) (arm : ℤ) :
    Except AdvErr ℚ × AdvEnv α :=
  let (rs, a₁) := A.decide_rewards e.adv
  match pyGet rs arm with
  | none => (Except.error AdvErr.indexError, ⟨some rs, a₁⟩)
  | some r => (Except.ok r, ⟨some rs, A.register_interaction a₁ arm⟩)

/-- `FullInformationAdversarialMultiArmedEnvironment.rewards` (lines 67-71):
caches the decided vector, registers the interaction, and returns just the
vector — no scalar component. -/
def AdvEnv.rewards {α : Type} (A : Adversary α) (e : AdvEnv α) (arm : ℤ) :
    List ℚ × AdvEnv α :=
  let (rs, a₁) := A.decide_rewards e.adv
  (rs, ⟨some rs, A.register_interaction a₁ arm⟩)

/-- What claim C6 and the `FullInformationEnvironment.rewards` contract
(`-> (List[float], float)`) say the method returns: the full vector paired
with the played arm's scalar outcome.  For comparison with
`AdvEnv.rewards`. -/
def AdvEnv.rewardsSpec {α : Type} (A : Adversary α) (e : AdvEnv α) (arm : ℤ) :
    Option ((List ℚ × ℚ) × AdvEnv α) :=
  let (rs, a₁) := A.decide_rewards e.adv
  (pyGet rs arm).map (fun r => ((rs, r), ⟨some rs, A.register_interaction a₁ arm⟩))

/-- Python's `x, y = l` tuple-unpacking of a list (what
`FullInformationExperiment.round` does with the environment's return value):
succeeds exactly on length-2 lists. -/
def pyUnpack2 {β : Type} (l : List β) : Option (β × β) :=
  match l with
  | [a, b] => some (a, b)
  | _ => none

/-- An adversary with no internal state that always offers `l`. -/
def constAdversary (l : List ℚ) : Adversary Unit :=
  ⟨l.length, fun u => (l, u), fun u _ => u⟩

/-- A sequence of `reward(arm)` calls, threading the environment state
(whether or not each call raised). -/
def AdvEnv.applyRewards {α : Type} (A : Adversary α) (e : AdvEnv α) :
    List ℤ → AdvEnv α
  | [] => e
  | arm :: arms => AdvEnv.applyRewards A (AdvEnv.reward A e arm).2 arms

theorem AdvEnv.reward_last_some {α : Type} (A : Adversary α) (e : AdvEnv α)
    (arm : ℤ) : ∃ l, (AdvEnv.reward A e arm).2.last_rewards = some l := by
  rcases hp : A.decide_rewards e.adv with ⟨rs, a₁⟩
  simp only [AdvEnv.reward, hp]
  cases hg : pyGet rs arm <;> exact ⟨rs, rfl⟩

theorem AdvEnv.applyRewards_keeps_some {α : Type} (A : Adversary α)
    (arms : List ℤ) : ∀ (e : AdvEnv α) (l : List ℚ),
    e.last_rewards = some l →
    ∃ l', (AdvEnv.applyRewards A e arms).last_rewards = some l' := by
  induction arms with
  | nil => exact fun e l h => ⟨l, h⟩
  | cons a rest ih =>
    intro e l _
    obtain ⟨l0, h0⟩ := AdvEnv.reward_last_some A e a
    exact ih (AdvEnv.reward A e a).2 l0 h0

theorem AdvEnv.applyRewards_last_some {α : Type} (A : Adversary α)
    (arms : List ℤ) (e : AdvEnv α) (h : arms ≠ []) :
    ∃ l, (AdvEnv.applyRewards A e arms).last_rewards = some l := by
  match arms, h with
  | a :: rest, _ =>
    obtain ⟨l0, h0⟩ := AdvEnv.reward_last_some A e a
    exact AdvEnv.applyRewards_keeps_some A rest (AdvEnv.reward A e a).2 l0 h0

/-! ## The Experiment control loop (src/skbandit/experiments/base.py)

`Experiment` only sees its environment and bandit through the interface
methods, so both are modelled as records of state transformers.
`BanditFeedbackExperiment.round` (lines 95-102) and `Experiment.rounds`
(lines 40-54) are transcribed over them; an uncaught Python exception leaves
already-performed mutations in place, so both return the final states next
to the `Except` result. -/

structure EnvModel (σ : Type) where
  may_stop : Bool
  will_accept : σ → Bool
  reward : σ → ℕ → ℚ × σ
  regret : σ → ℚ → ℚ

structure BanditModel (β : Type) where
  pull : β → ℕ × β
  reward : β → ℕ → ℚ → β

inductive ExpErr where
  | exhausted : ExpErr
  deriving Repr, DecidableEq

/-- `BanditFeedbackExperiment.round`: the exhaustion guard, then
pull / resolve / forward / regret. -/
def banditRound {σ β : Type} (E : EnvModel σ) (B : BanditModel β)
    (s : σ) (b : β) : Except ExpErr ℚ × σ × β :=
  if E.may_stop ∧ ¬ E.will_accept s then (Except.error ExpErr.exhausted, s, b)
  else
    let (arm, b₁) := B.pull b
    let (r, s₁) := E.reward s arm
    let b₂ := B.reward b₁ arm r
    (Except.ok (E.regret s₁ r), s₁, b₂)

/-- `sum(self.round() for _ in range(n))`: the branch of `rounds` taken when
the environment never stops; a raise propagates. -/
def sumRounds {σ β : Type} (E : EnvModel σ) (B : BanditModel β) :
    ℕ → σ → β → Except ExpErr ℚ × σ × β
  | 0, s, b => (Except.ok 0, s, b)
  | n + 1, s, b =>
    match banditRound E B s b with
    | (Except.ok q, s₁, b₁) =>
      match sumRounds E B n s₁ b₁ with
      | (Except.ok rest, s₂, b₂) => (Except.ok (q + rest), s₂, b₂)
      | (Except.error ε, s₂, b₂) => (Except.error ε, s₂, b₂)
    | (Except.error ε, s₁, b₁) => (Except.error ε, s₁, b₁)

/-- The checked loop of `rounds`: before each round, break (returning the
running total) as soon as `will_accept_input()` is false. -/
def checkedRounds {σ β : Type} (E : EnvModel σ) (B : BanditModel β) :
    ℕ → σ → β → Except ExpErr ℚ × σ × β
  | 0, s, b => (Except.ok 0, s, b)
  | n + 1, s, b =>
    if ¬ E.will_accept s then (Except.ok 0, s, b)
    else
      match banditRound E B s b with
      | (Except.ok q, s₁, b₁) =>
        match checkedRounds E B n s₁ b₁ with
        | (Except.ok rest, s₂, b₂) => (Except.ok (q + rest), s₂, b₂)
        | (Except.error ε, s₂, b₂) => (Except.error ε, s₂, b₂)
      | (Except.error ε, s₁, b₁) => (Except.error ε, s₁, b₁)

/-- `Experiment.rounds(n)`. -/
def banditRounds {σ β : Type} (E : EnvModel σ) (B : BanditModel β)
    (n : ℕ) (s : σ) (b : β) : Except ExpErr ℚ × σ × β :=
  if ¬ E.may_stop then sumRounds E B n s b else checkedRounds E B n s b

theorem checkedRounds_never_errors {σ β : Type} (E : EnvModel σ)
    (B : BanditModel β) (hm : E.may_stop = true) :
    ∀ (n : ℕ) (s : σ) (b : β), ∃ q t u,
      checkedRounds E B n s b = (Except.ok q, t, u) := by
  intro n
  induction n with
  | zero => exact fun s b => ⟨0, s, b, rfl⟩
  | succ n ih =>
    intro s b
    by_cases hw : E.will_accept s
    · obtain ⟨q, t, u, hrec⟩ :=
        ih (E.reward s (B.pull b).1).2
          (B.reward (B.pull b).2 (B.pull b).1 (E.reward s (B.pull b).1).1)
      refine ⟨E.regret (E.reward s (B.pull b).1).2 (E.reward s (B.pull b).1).1 + q,
        t, u, ?_⟩
      simp [checkedRounds, hw, banditRound, hm, hrec]
    · exact ⟨0, s, b, by simp [checkedRounds, hw]⟩

end SkBandit

namespace SkBandit

/-! ## Claim theorems -/

/-- C1.  An `ExploreThenCommitBandit(n_arms)` with no epoch parameters
(`n_epochs`, `gap`, `horizon` all `None`) returns, on its first `n_arms`
calls to `pull`, the arms `0, 1, …, n_arms - 1` in increasing order: each
arm is played exactly once before any arm is repeated. -/
theorem etc_first_pulls_round_robin (n : ℕ) (hn : 1 ≤ n) :
    (ETC.construct n none none none).pulls n = some (List.range n) := by
  have h := ETC.pulls_explore n (ETC.construct n none none none)
    (by simp only [ETC.construct, ETC.mk0, etcNEpochs]; omega)
    (by simp [ETC.construct, ETC.mk0, etcNEpochs])
  rw [h]
  congr 1
  have : (ETC.construct n none none none).current_round = 0 := rfl
  rw [this, ← List.range_eq_range']
  refine List.map_congr_left (fun i hi => ?_) |>.trans (List.map_id _)
  exact Nat.mod_eq_of_lt (List.mem_range.mp hi)

/-- Witness for C1 at `n_arms = 3`. -/
theorem etc_first_pulls_round_robin_witness :
    (ETC.construct 3 none none none).pulls 3 = some (List.range 3) :=
  etc_first_pulls_round_robin 3 (by decide)

/-- C2.  At the first `pull` past the exploration horizon the bandit commits
to the first (lowest-index) arm of maximum accumulated total reward; from
then on every `pull` of any interleaving of `pull`/`reward` calls returns
that arm, and every `reward` call is a no-op leaving the state (hence the
committed arm) untouched, whatever its arguments. -/
theorem etc_commit_irreversible (s : ETC) (h0 : s.best_arm = none)
    (hn : s.n_arms ≠ 0) (hr : s.n_arms * s.n_epochs ≤ s.current_round)
    (ht : s.acc.total_rewards ≠ []) :
    ∃ c s₁, s.pull = some (c, s₁) ∧
      pyIndexOfMax s.acc.total_rewards = some c ∧
      (∀ arm v, s₁.reward arm v = some s₁) ∧
      ∀ ops : List ETCOp, ∃ arms s₂, s₁.runOps ops = some (arms, s₂) ∧
        ∀ a ∈ arms, a = c := by
  obtain ⟨c, hc⟩ := pyIndexOfMax_isSome ht
  have hpull : s.pull = some (c, ETC.nextRound { s with best_arm := some c }) := by
    unfold ETC.pull
    rw [if_neg hn, if_neg (by omega), h0, hc]
  have hcom : (ETC.nextRound { s with best_arm := some c }).CommittedTo c :=
    ⟨rfl, hn, by simp only [ETC.nextRound]; omega⟩
  refine ⟨c, _, hpull, hc, fun arm v => ETC.reward_committed hcom arm v, fun ops => ?_⟩
  obtain ⟨arms, s₂, hrun, hall, -⟩ := ETC.runOps_committed hcom ops
  exact ⟨arms, s₂, hrun, hall⟩

/-- C3.  A `MultiArmedStochasticExperiment` over two degenerate distributions
with means `0` and `1` and an `ExploreThenCommitBandit(n_arms=2)` with no
epoch parameters: construction succeeds (the arm counts match, `best_arm`
is `1`) and `rounds(10)` returns cumulative regret exactly `1`: one unit on
the single exploration pull of arm `0`, zero on every other round. -/
theorem experiment_two_degenerate_arms_regret_one :
    ∃ e : StochasticMAEnv,
      StochasticMAEnv.construct [⟨0, 0⟩, ⟨1, 1⟩] = some e ∧
      MultiArmedStochasticExperiment.constructCheck e 2 = some 1 ∧
      ∃ s, stochRounds e (ETC.construct 2 none none none) 10 = some (1, s) := by
  refine ⟨⟨[⟨0, 0⟩, ⟨1, 1⟩], [0, 1], 1, 1⟩, ?_, ?_, ?_⟩
  · norm_num [StochasticMAEnv.construct, pyMax, List.findIdx_cons]
  · norm_num [MultiArmedStochasticExperiment.constructCheck,
      StochasticMAEnv.n_arms, pyMax, List.findIdx_cons]
  · have hc : ETC.construct 2 none none none =
        ⟨2, 1, 0, none, ⟨[0, 0], [0, 0]⟩, 1⟩ := rfl
    have h1 : stochRound ⟨[⟨0, 0⟩, ⟨1, 1⟩], [0, 1], 1, 1⟩
        ⟨2, 1, 0, none, ⟨[0, 0], [0, 0]⟩, 1⟩ =
        some (1, ⟨2, 1, 1, none, ⟨[1, 0], [0, 0]⟩, 1⟩) := by
      simp [stochRound, ETC.pull, ETC.reward, ETC.nextRound,
        RewardAccumulator.reward, StochasticMAEnv.rewardOf,
        StochasticMAEnv.regret, pyGet, pySet, pyNormIdx]
    have h2 : stochRound ⟨[⟨0, 0⟩, ⟨1, 1⟩], [0, 1], 1, 1⟩
        ⟨2, 1, 1, none, ⟨[1, 0], [0, 0]⟩, 1⟩ =
        some (0, ⟨2, 1, 2, none, ⟨[1, 1], [0, 1]⟩, 0⟩) := by
      simp [stochRound, ETC.pull, ETC.reward, ETC.nextRound,
        RewardAccumulator.reward, StochasticMAEnv.rewardOf,
        StochasticMAEnv.regret, pyGet, pySet, pyNormIdx]
    have h3 : stochRound ⟨[⟨0, 0⟩, ⟨1, 1⟩], [0, 1], 1, 1⟩
        ⟨2, 1, 2, none, ⟨[1, 1], [0, 1]⟩, 0⟩ =
        some (0, ⟨2, 1, 3, some 1, ⟨[1, 1], [0, 1]⟩, 0⟩) := by
      simp [stochRound, ETC.pull, ETC.reward, ETC.nextRound,
        RewardAccumulator.reward, StochasticMAEnv.rewardOf,
        StochasticMAEnv.regret, pyGet, pySet, pyNormIdx, pyIndexOfMax, pyMax,
        List.findIdx_cons]
    have hcom : ETC.CommittedTo ⟨2, 1, 3, some 1, ⟨[1, 1], [0, 1]⟩, 0⟩ 1 :=
      ⟨rfl, by decide, by decide⟩
    have hrw : StochasticMAEnv.rewardOf ⟨[⟨0, 0⟩, ⟨1, 1⟩], [0, 1], 1, 1⟩
        ((1 : ℕ) : ℤ) = some 1 := rfl
    have hreg : StochasticMAEnv.regret ⟨[⟨0, 0⟩, ⟨1, 1⟩], [0, 1], 1, 1⟩ 1 = 0 := by
      norm_num [StochasticMAEnv.regret]
    obtain ⟨s', h7⟩ := stochRounds_committed hreg hrw 7 hcom
    refine ⟨s', ?_⟩
    rw [hc, show (10 : ℕ) = 9 + 1 from rfl, stochRounds_succ, h1]
    simp only [Option.some_bind]
    rw [show (9 : ℕ) = 8 + 1 from rfl, stochRounds_succ, h2]
    simp only [Option.some_bind]
    rw [show (8 : ℕ) = 7 + 1 from rfl, stochRounds_succ, h3]
    simp only [Option.some_bind]
    rw [h7]
    simp only [Option.some_bind]
    norm_num

/-- C4 (refuting evaluation).  The plain LinUCB cold start is off by one:
with `n_arms = 1` even the first `pull` leaves the cold-start branch and
divides by `arm_counts[0] = 0` (`ZeroDivisionError`, modelled `none`), and
with `n_arms = 2` the first pull returns arm `0` but the second — whether or
not arm `0`'s reward was delivered in between — enters the UCB branch and
divides by `arm_counts[1] = 0`, instead of cold-starting arm `1`. -/
theorem linucb_cold_start_off_by_one :
    LinUCB.pull (LinUCB.init 1) = none ∧
    ∀ v : ℚ, ∃ s₁ s₂,
      LinUCB.pull (LinUCB.init 2) = some (0, s₁) ∧
      LinUCB.reward s₁ 0 v = some s₂ ∧
      LinUCB.pull s₂ = none := by
  refine ⟨by decide, fun v => ⟨⟨2, 1, ⟨[0, 0], [0, 0]⟩⟩, ⟨2, 1, ⟨[1, 0], [v, 0]⟩⟩,
    by decide, ?_, ?_⟩⟩
  · simp [LinUCB.reward, RewardAccumulator.reward, pyGet, pySet, pyNormIdx]
  · simp [LinUCB.pull, LinUCB.estimatedRewards, pyListComp, pyGet, pySet,
      pyNormIdx, show List.range 2 = [0, 1] from rfl]

/-- C5 (refuting evaluation).  On a fresh contextual LinUCB with one arm and
two features, `reward(0, 1, context=[1, 2])` does not perform the claimed
rank-one update: because the 1-D `context @ context.T` is the scalar dot
product `5`, the code adds `5` to every entry of `A[0]` (giving
`[[6,5],[5,6]]`), and the in-place `b += reward * context.T` then raises
`ValueError` (a `(2,)` vector cannot broadcast in place into the `(2,1)`
column), leaving `b` untouched.  The claimed update would instead give
`A[0] = [[2,2],[2,5]]` and `b[0] = [[1],[2]]`. -/
theorem ctx_linucb_reward_not_outer_product :
    CtxLinUCB.reward (CtxLinUCB.init 1 2) 0 1 [1, 2] =
      (some NpErr.valueError, ⟨1, 2, 0, [[[6, 5], [5, 6]]], [[[0], [0]]]⟩) ∧
    CtxLinUCB.rewardSpec (CtxLinUCB.init 1 2) 0 1 [1, 2] =
      some ⟨1, 2, 0, [[[2, 2], [2, 5]]], [[[1], [2]]]⟩ ∧
    ([[[(6 : ℚ), 5], [5, 6]]] : List (List (List ℚ))) ≠ [[[2, 2], [2, 5]]] := by
  refine ⟨?_, ?_, by decide⟩
  · norm_num [CtxLinUCB.reward, CtxLinUCB.init, npIdentity, npZerosCol, npDot,
      npIaddScalar, npIaddRow, pyGet, pySet, pyNormIdx,
      List.replicate_succ, show List.range 2 = [0, 1] from rfl]
  · norm_num [CtxLinUCB.rewardSpec, CtxLinUCB.init, npIdentity, npZerosCol,
      pyGet, pySet, pyNormIdx, List.replicate_succ,
      show List.range 2 = [0, 1] from rfl]

/-- C6 (refuting evaluation).  For a constant three-arm adversary offering
`[0, 1, 2]`, the full-information `rewards(0)` does decide, cache and
register — but returns only the bare vector `[0, 1, 2]`, not the
`(vector, scalar)` pair its own abstract contract declares; the experiment
loop's two-element unpacking of that three-element list fails, where the
claimed return value would have been `([0, 1, 2], 0)`. -/
theorem fia_rewards_returns_bare_vector :
    AdvEnv.rewards (constAdversary [0, 1, 2]) (AdvEnv.init ()) 0 =
      ([0, 1, 2], ⟨some [0, 1, 2], ()⟩) ∧
    pyUnpack2 [(0 : ℚ), 1, 2] = none ∧
    AdvEnv.rewardsSpec (constAdversary [0, 1, 2]) (AdvEnv.init ()) 0 =
      some (([0, 1, 2], 0), ⟨some [0, 1, 2], ()⟩) :=
  ⟨rfl, rfl, rfl⟩

/-- C7.  With an environment that may stop accepting inputs and currently
will not: a single `round()` returns the environment-exhausted condition
leaving the environment and bandit states exactly as they were, while
`rounds(n)` never surfaces that condition — at an already-exhausted state it
returns the partial sum `0` with both states unchanged, and from any state
it returns an `ok` total. -/
theorem experiment_exhaustion_round_vs_rounds {σ β : Type} (E : EnvModel σ)
    (B : BanditModel β) (s : σ) (b : β)
    (hm : E.may_stop = true) (hw : E.will_accept s = false) :
    banditRound E B s b = (Except.error ExpErr.exhausted, s, b) ∧
    (∀ n, banditRounds E B n s b = (Except.ok 0, s, b)) ∧
    (∀ (n : ℕ) (t : σ) (u : β), ∃ q t' u',
      banditRounds E B n t u = (Except.ok q, t', u')) := by
  refine ⟨?_, ?_, ?_⟩
  · simp [banditRound, hm, hw]
  · intro n
    cases n with
    | zero => simp [banditRounds, hm, checkedRounds]
    | succ n => simp [banditRounds, hm, checkedRounds, hw]
  · intro n t u
    simpa [banditRounds, hm] using checkedRounds_never_errors E B hm n t u

/-- Witness for C7: a one-shot environment already exhausted (`σ = β = Unit`,
`will_accept` constantly false). -/
theorem experiment_exhaustion_round_vs_rounds_witness :
    banditRound ⟨true, fun _ => false, fun s _ => (0, s), fun _ _ => 0⟩
        ⟨fun b => (0, b), fun b _ _ => b⟩ () () =
      (Except.error ExpErr.exhausted, (), ()) ∧
    (∀ n, banditRounds ⟨true, fun _ => false, fun s _ => (0, s), fun _ _ => 0⟩
        ⟨fun b => (0, b), fun b _ _ => b⟩ n () () = (Except.ok 0, (), ())) ∧
    (∀ (n : ℕ) (t : Unit) (u : Unit), ∃ q t' u',
      banditRounds ⟨true, fun _ => false, fun s _ => (0, s), fun _ _ => 0⟩
        ⟨fun b => (0, b), fun b _ _ => b⟩ n t u = (Except.ok q, t', u')) :=
  experiment_exhaustion_round_vs_rounds _ _ () () rfl rfl

/-- C8.  Over any adversary and any sequence of `reward` calls on a freshly
constructed adversarial environment, `regret` yields the sequencing
violation exactly when the sequence is empty (the cached `_last_rewards` is
still absent); whenever the cache holds a vector with a maximum, `regret`
returns that maximum minus the obtained reward; in particular the fresh
environment itself (no `round()` yet) raises the sequencing violation. -/
theorem adversarial_regret_sequencing {α : Type} (A : Adversary α)
    (a0 : α) (arms : List ℤ) (r : ℚ) :
    (AdvEnv.regret (AdvEnv.applyRewards A (AdvEnv.init a0) arms) r =
        Except.error AdvErr.sequencingViolation ↔ arms = []) ∧
    (∀ (e : AdvEnv α) (l : List ℚ) (m : ℚ), e.last_rewards = some l →
      pyMax l = some m → AdvEnv.regret e r = Except.ok (m - r)) ∧
    AdvEnv.regret (AdvEnv.init a0) r = Except.error AdvErr.sequencingViolation := by
  refine ⟨⟨?_, ?_⟩, ?_, rfl⟩
  · intro h
    by_contra hne
    obtain ⟨l, hl⟩ := AdvEnv.applyRewards_last_some A arms (AdvEnv.init a0) hne
    rw [AdvEnv.regret, hl] at h
    cases hm : pyMax l <;> simp [hm] at h
  · rintro rfl
    rfl
  · intro e l m hl hm
    simp [AdvEnv.regret, hl, hm]

/-- C9 (amended).  `RewardAccumulatorMixin.reward` follows Python list
indexing: an arm at or beyond `n_arms`, or below `-n_arms`, raises
`IndexError` on the very first read (so neither array is written); any arm
that Python indexing accepts — `0 ≤ arm < n_arms`, but also the negative
in-range arms `-n_arms ≤ arm < 0`, which the original claim said must fail —
increments the count and adds the reward at the normalised position:
`arm` itself when `0 ≤ arm`, `n_arms + arm` when `arm < 0`. -/
theorem accumulator_reward_python_index_semantics (acc : RewardAccumulator)
    (n : ℕ) (arm : ℤ) (r : ℚ)
    (hc : acc.arm_counts.length = n) (ht : acc.total_rewards.length = n) :
    (((n : ℤ) ≤ arm ∨ arm < -(n : ℤ)) → acc.reward arm r = none) ∧
    (∀ j : ℕ, pyNormIdx n arm = some j →
      ∃ c t, acc.arm_counts.get? j = some c ∧ acc.total_rewards.get? j = some t ∧
        acc.reward arm r =
          some ⟨acc.arm_counts.set j (c + 1), acc.total_rewards.set j (t + r)⟩) ∧
    (0 ≤ arm → arm < (n : ℤ) → pyNormIdx n arm = some arm.toNat) ∧
    (arm < 0 → -(n : ℤ) ≤ arm → pyNormIdx n arm = some ((n : ℤ) + arm).toNat) := by
  have hlt : ∀ j : ℕ, pyNormIdx n arm = some j → j < n := by
    intro j hj
    unfold pyNormIdx at hj
    split_ifs at hj <;> simp only [Option.some.injEq] at hj <;> omega
  refine ⟨?_, ?_, ?_, ?_⟩
  · intro h
    have hnone : pyNormIdx n arm = none := by
      rcases h with h | h <;>
        (unfold pyNormIdx; split_ifs <;> first | rfl | (exfalso; omega))
    simp [RewardAccumulator.reward, pyGet, hc, hnone]
  · intro j hj
    have hjn := hlt j hj
    have hjc : j < acc.arm_counts.length := by omega
    have hjt : j < acc.total_rewards.length := by omega
    refine ⟨acc.arm_counts.get ⟨j, hjc⟩, acc.total_rewards.get ⟨j, hjt⟩,
      (List.get?_eq_get hjc).symm ▸ rfl, (List.get?_eq_get hjt).symm ▸ rfl, ?_⟩
    simp [RewardAccumulator.reward, pyGet, pySet, hc, ht, hj,
      List.get?_eq_get hjc, List.get?_eq_get hjt,
      List.getElem?_eq_getElem hjc, List.getElem?_eq_getElem hjt]
  · intro h0 hn
    unfold pyNormIdx
    split_ifs <;> first | rfl | (exfalso; omega)
  · intro h0 hn
    unfold pyNormIdx
    split_ifs <;> first | rfl | (exfalso; omega)

/-- Witness for C9 (amended) at `n_arms = 2`, `arm = -1`, reward `5`. -/
theorem accumulator_reward_python_index_semantics_witness :
    ((((2 : ℕ) : ℤ) ≤ -1 ∨ (-1 : ℤ) < -((2 : ℕ) : ℤ)) →
      RewardAccumulator.reward ⟨[0, 0], [0, 0]⟩ (-1) 5 = none) ∧
    (∀ j : ℕ, pyNormIdx 2 (-1) = some j →
      ∃ c t, List.get? [0, 0] j = some c ∧ List.get? [(0 : ℚ), 0] j = some t ∧
        RewardAccumulator.reward ⟨[0, 0], [0, 0]⟩ (-1) 5 =
          some ⟨List.set [0, 0] j (c + 1), List.set [(0 : ℚ), 0] j (t + 5)⟩) ∧
    ((0 : ℤ) ≤ -1 → (-1 : ℤ) < ((2 : ℕ) : ℤ) →
      pyNormIdx 2 (-1) = some (Int.toNat (-1))) ∧
    ((-1 : ℤ) < 0 → -((2 : ℕ) : ℤ) ≤ -1 →
      pyNormIdx 2 (-1) = some (Int.toNat (((2 : ℕ) : ℤ) + -1))) :=
  accumulator_reward_python_index_semantics ⟨[0, 0], [0, 0]⟩ 2 (-1) 5 rfl rfl

/-- C9 counterexample: with two arms, the out-of-`[0, n_arms)` arm `-1`
does not make the record operation fail — Python's negative indexing
silently updates the last entry instead. -/
theorem accumulator_negative_index_not_rejected :
    RewardAccumulator.reward ⟨[0, 0], [0, 0]⟩ (-1) 5 = some ⟨[0, 1], [0, 5]⟩ ∧
    RewardAccumulator.reward ⟨[0, 0], [0, 0]⟩ (-1) 5 ≠ none := by
  have h : RewardAccumulator.reward ⟨[0, 0], [0, 0]⟩ (-1) 5 =
      some ⟨[0, 1], [0, 5]⟩ := by
    simp [RewardAccumulator.reward, pyGet, pySet, pyNormIdx]
  exact ⟨h, by simp [h]⟩

/-- C10.  When both an explicit `n_epochs` and a complete `(gap, horizon)`
pair are passed to `ExploreThenCommitBandit.__init__`, the `(gap, horizon)`
formula wins and the explicit `n_epochs` is ignored; `n_epochs` is used
exactly when `gap` or `horizon` is absent. -/
theorem etc_gap_horizon_precedence (n k h : ℕ) (g : ℝ) :
    ETC.construct n (some k) (some g) (some h) =
      ETC.construct n none (some g) (some h) ∧
    (ETC.construct n (some k) (some g) (some h)).n_epochs =
      max 1 ⌈(4 / g ^ 2) * Real.log ((h : ℝ) * g ^ 2 / 4)⌉.toNat ∧
    ETC.construct n (some k) none (some h) = ETC.mk0 n k ∧
    ETC.construct n (some k) (some g) none = ETC.mk0 n k ∧
    ETC.construct n (some k) none none = ETC.mk0 n k :=
  ⟨rfl, rfl, rfl, rfl, rfl⟩

/-- Witness for C2: a two-arm bandit one round past its exploration horizon
with totals `[3, 5]` commits to arm `1`, and a post-commitment
`reward(0, 100)` changes nothing while both later pulls return arm `1`. -/
theorem etc_commit_irreversible_witness :
    ∃ c s₁,
      ETC.pull ⟨2, 1, 2, none, ⟨[1, 1], [3, 5]⟩, 0⟩ = some (c, s₁) ∧
      pyIndexOfMax [3, 5] = some c ∧
      (∀ arm v, s₁.reward arm v = some s₁) ∧
      ∀ ops : List ETCOp, ∃ arms s₂, s₁.runOps ops = some (arms, s₂) ∧
        ∀ a ∈ arms, a = c :=
  etc_commit_irreversible _ rfl (by decide) (by decide) (by decide)

end SkBandit
